import Mathlib

/-
Verification of the cnx-publishing acceptance/commit core against its
specification.

The embedding mirrors the relational state manipulated by
`cnxpublishing/views.py`.  Tables are lists of rows; the SQL statements of
the views are translated row by row.  The repository functions that live in
`cnxpublishing/db.py` (`add_publication`, `poke_publication_state`,
`check_publication_state` and the commit engine) are not part of the
available sources; where they are needed they are modelled from the
specification and marked as such in their doc comments.

Three instrumentation fields (`commitLog`, `pokeLog`, `acceptCallLog`)
record, respectively, each invocation of the commit engine, each invocation
of the state evaluator, and each ledger bulk-update call; they let trace
properties (at-most-once commit, evaluator re-invocation, zero acceptance
calls) be stated as facts about the resulting state.
-/

abbrev PubId := Nat
abbrev UserId := String
abbrev Uuid := String

/-- Publication state as exposed by the status query:
`Processing`, `Done/Success` or `Failure`. -/
inductive PubState where
  | processing
  | done
  | failure
deriving DecidableEq, Repr

/-- Modelled from the spec: a row of the `publications` table (§3 of the
spec; the table itself is created by the absent `db.py`): identifier,
overall state and the trust flag captured at submission time. -/
structure Publication where
  id : PubId
  state : PubState
  trusted : Bool
deriving DecidableEq, Repr

/-- A row of `pending_documents` with the columns the views touch:
`publication_id`, `uuid`, `major_version`, `minor_version` and the title
drawn from the metadata. -/
structure PendingDocument where
  publication_id : PubId
  uuid : Uuid
  major : Nat
  minor : Nat
  title : String
deriving DecidableEq, Repr

/-- A row of `publications_license_acceptance` or
`publications_role_acceptance`: the columns used by the SQL in
`views.py` are `uuid`, `user_id` and `acceptance`. -/
structure AcceptanceRow where
  uuid : Uuid
  user_id : UserId
  acceptance : Bool
deriving DecidableEq, Repr

/-- A row of the permanent `modules` table (the archive), with the columns
the tests read: uuid, versions and name. -/
structure ModuleRow where
  uuid : Uuid
  major : Nat
  minor : Nat
  name : String
deriving DecidableEq, Repr

/-- The relational state.  The three trailing log fields are
instrumentation: `commitLog` records every commit-engine invocation,
`pokeLog` every state-evaluator invocation, `acceptCallLog` every ledger
bulk-update call (tagged "license" or "role"). -/
structure DB where
  publications : List Publication
  pending_documents : List PendingDocument
  publications_license_acceptance : List AcceptanceRow
  publications_role_acceptance : List AcceptanceRow
  modules : List ModuleRow
  commitLog : List PubId
  pokeLog : List PubId
  acceptCallLog : List (String × PubId)
deriving DecidableEq, Repr

/-- `EXISTS (SELECT 1 FROM pending_documents pd WHERE pd.publication_id = p
AND pd.uuid = u)` over a given `pending_documents` table. -/
def pendingHasIn (P : List PendingDocument) (p : PubId) (u : Uuid) : Bool :=
  P.any (fun pd => pd.publication_id == p && pd.uuid == u)

/-- Row transformer of the UPDATE in `post_accept_license`
(views.py lines 119-129): `SET acceptance = 't' ... WHERE
pd.publication_id = %s AND pla.user_id = %s AND pd.uuid = pla.uuid`. -/
def licenseRowUpdate (P : List PendingDocument) (p : PubId) (uid : UserId)
    (r : AcceptanceRow) : AcceptanceRow :=
  if r.user_id == uid && pendingHasIn P p r.uuid then
    { r with acceptance := true }
  else r

/-- Row transformer of the UPDATE in `post_accept_role`
(views.py lines 189-197): `SET acceptance = 't' ... WHERE
pd.publication_id = %s AND pd.uuid = pra.uuid` (no person restriction). -/
def roleRowUpdate (P : List PendingDocument) (p : PubId)
    (r : AcceptanceRow) : AcceptanceRow :=
  if pendingHasIn P p r.uuid then { r with acceptance := true } else r

/-- The UPDATE executed by `post_accept_license`: every license-acceptance
row of user `uid` whose uuid belongs to a pending document of publication
`p` is set accepted.  The call is recorded in `acceptCallLog`. -/
def updateLicenseAcceptance (db : DB) (p : PubId) (uid : UserId) : DB :=
  { db with
    publications_license_acceptance :=
      db.publications_license_acceptance.map
        (licenseRowUpdate db.pending_documents p uid),
    acceptCallLog := db.acceptCallLog ++ [("license", p)] }

/-- The UPDATE executed by `post_accept_role`: every role-acceptance row
whose uuid belongs to a pending document of publication `p` is set
accepted, for every person.  The call is recorded in `acceptCallLog`. -/
def updateRoleAcceptance (db : DB) (p : PubId) : DB :=
  { db with
    publications_role_acceptance :=
      db.publications_role_acceptance.map
        (roleRowUpdate db.pending_documents p),
    acceptCallLog := db.acceptCallLog ++ [("role", p)] }

theorem forall₂_map_self {α β : Type} (R : α → β → Prop) (f : α → β)
    (l : List α) (h : ∀ a, R a (f a)) : List.Forall₂ R l (l.map f) := by
  induction l with
  | nil => exact List.Forall₂.nil
  | cons a t ih => exact List.Forall₂.cons (h a) ih

/-- Claim C3: the role-acceptance operation without a restricting person
marks accepted every role-acceptance record attached (by uuid) to a
pending document of the given publication, for all persons, while
license-acceptance records, records of other publications, and every
other table are untouched. -/
theorem c3_accept_role_bulk_update (db : DB) (p : PubId) :
    List.Forall₂
      (fun old new =>
        if pendingHasIn db.pending_documents p old.uuid then
          new = { old with acceptance := true }
        else new = old)
      db.publications_role_acceptance
      (updateRoleAcceptance db p).publications_role_acceptance
    ∧ (∀ r ∈ (updateRoleAcceptance db p).publications_role_acceptance,
        pendingHasIn db.pending_documents p r.uuid = true →
        r.acceptance = true)
    ∧ (updateRoleAcceptance db p).publications_license_acceptance =
        db.publications_license_acceptance
    ∧ (updateRoleAcceptance db p).pending_documents = db.pending_documents
    ∧ (updateRoleAcceptance db p).publications = db.publications
    ∧ (updateRoleAcceptance db p).modules = db.modules := by
  refine ⟨?_, ?_, rfl, rfl, rfl, rfl⟩
  · exact forall₂_map_self _ _ _ (fun a => by
      by_cases h : pendingHasIn db.pending_documents p a.uuid
      · simp [roleRowUpdate, h]
      · simp [roleRowUpdate, h])
  · intro r hr hcond
    rcases List.mem_map.mp hr with ⟨r0, _, rfl⟩
    by_cases h0 : pendingHasIn db.pending_documents p r0.uuid
    · simp [roleRowUpdate, h0]
    · exfalso
      apply h0
      simp [roleRowUpdate, h0] at hcond

/-- Witness for C3 at a concrete store: one pending document of
publication 1 with uuid "u", one matching role row (initially
unaccepted) and one unrelated role row. -/
def c3DB : DB :=
  { publications := [{ id := 1, state := PubState.processing, trusted := false }]
    pending_documents := [{ publication_id := 1, uuid := "u", major := 1, minor := 1, title := "T" }]
    publications_license_acceptance := [{ uuid := "u", user_id := "alice", acceptance := false }]
    publications_role_acceptance :=
      [{ uuid := "u", user_id := "alice", acceptance := false },
       { uuid := "w", user_id := "bob", acceptance := false }]
    modules := []
    commitLog := []
    pokeLog := []
    acceptCallLog := [] }

theorem c3_accept_role_bulk_update_witness :
    List.Forall₂
      (fun old new =>
        if pendingHasIn c3DB.pending_documents 1 old.uuid then
          new = { old with acceptance := true }
        else new = old)
      c3DB.publications_role_acceptance
      (updateRoleAcceptance c3DB 1).publications_role_acceptance
    ∧ (∀ r ∈ (updateRoleAcceptance c3DB 1).publications_role_acceptance,
        pendingHasIn c3DB.pending_documents 1 r.uuid = true →
        r.acceptance = true)
    ∧ (updateRoleAcceptance c3DB 1).publications_license_acceptance =
        c3DB.publications_license_acceptance
    ∧ (updateRoleAcceptance c3DB 1).pending_documents = c3DB.pending_documents
    ∧ (updateRoleAcceptance c3DB 1).publications = c3DB.publications
    ∧ (updateRoleAcceptance c3DB 1).modules = c3DB.modules :=
  c3_accept_role_bulk_update c3DB 1

/-- Update of a publication's state column (conditional UPDATE keyed on
the identifier). -/
def setState (db : DB) (p : PubId) (s : PubState) : DB :=
  { db with
    publications :=
      db.publications.map
        (fun q => if q.id == p then { q with state := s } else q) }

/-- Lookup of a publication's state column over a publications table. -/
def stateOfIn (l : List Publication) (p : PubId) : Option PubState :=
  (l.find? (fun q => q.id == p)).map Publication.state

/-- Lookup of a publication's current state. -/
def stateOf (db : DB) (p : PubId) : Option PubState :=
  stateOfIn db.publications p

/-- Modelled from the spec: `check_publication_state` of the absent
`db.py` — a pure read of the publication's state column. -/
def check_publication_state (db : DB) (p : PubId) : Option PubState :=
  stateOf db p

/-- Number of acceptance records (license and role) with `accepted =
false` attached, by uuid, to a pending document of publication `p`
(spec §4.2 step 2), over explicit table arguments. -/
def unacceptedCountIn (lic role : List AcceptanceRow)
    (P : List PendingDocument) (p : PubId) : Nat :=
  (lic.filter (fun r => !r.acceptance && pendingHasIn P p r.uuid)).length +
  (role.filter (fun r => !r.acceptance && pendingHasIn P p r.uuid)).length

/-- Number of unaccepted acceptance records of publication `p`. -/
def unacceptedCount (db : DB) (p : PubId) : Nat :=
  unacceptedCountIn db.publications_license_acceptance
    db.publications_role_acceptance db.pending_documents p

/-- Modelled from the spec: the Commit Engine's defensive conflict check
(§4.3) — a competing permanent record with the same (uuid, version)
already exists for some pending document of the publication. -/
def commitConflict (db : DB) (p : PubId) : Bool :=
  db.pending_documents.any (fun pd =>
    pd.publication_id == p &&
    db.modules.any (fun m =>
      m.uuid == pd.uuid && m.major == pd.major && m.minor == pd.minor))

/-- Modelled from the spec: the Commit Engine of the absent `db.py`
(§4.3).  The invocation is recorded in `commitLog`.  On conflict it fails
and leaves the pending rows exactly as before; on success it promotes
every pending document of the publication to a permanent `modules` row
and deletes the promoted pending documents and their acceptance records,
as a single atomic unit. -/
def commitPublication (db : DB) (p : PubId) : Bool × DB :=
  let db1 := { db with commitLog := db.commitLog ++ [p] }
  if commitConflict db p then (false, db1)
  else
    let promoted := db.pending_documents.filter
      (fun pd => pd.publication_id == p)
    let promotedUuids := promoted.map (fun pd => pd.uuid)
    (true,
      { db1 with
        modules := db.modules ++ promoted.map (fun pd =>
          { uuid := pd.uuid, major := pd.major, minor := pd.minor,
            name := pd.title }),
        pending_documents := db.pending_documents.filter
          (fun pd => !(pd.publication_id == p)),
        publications_license_acceptance :=
          db.publications_license_acceptance.filter
            (fun r => !(promotedUuids.contains r.uuid)),
        publications_role_acceptance :=
          db.publications_role_acceptance.filter
            (fun r => !(promotedUuids.contains r.uuid)) })

/-- Modelled from the spec: the branch structure of
`poke_publication_state` of the absent `db.py` (§4.2): load the current
state; a terminal (or missing) publication is returned unchanged; with
unaccepted records outstanding the state stays `Processing`; otherwise
the commit engine runs and the state becomes `Done/Success` or
`Failure`. -/
def pokeCore (db : DB) (p : PubId) : Option PubState × DB :=
  match db.publications.find? (fun q => q.id == p) with
  | none => (none, db)
  | some pub =>
    match pub.state with
    | PubState.done => (some PubState.done, db)
    | PubState.failure => (some PubState.failure, db)
    | PubState.processing =>
      if 0 < unacceptedCount db p then (some PubState.processing, db)
      else
        match commitPublication db p with
        | (true, db1) => (some PubState.done, setState db1 p PubState.done)
        | (false, db1) =>
            (some PubState.failure, setState db1 p PubState.failure)

/-- Modelled from the spec: `poke_publication_state` — the State
Evaluator.  Every invocation is recorded in `pokeLog`. -/
def poke_publication_state (db : DB) (p : PubId) : Option PubState × DB :=
  let r := pokeCore db p
  (r.1, { r.2 with pokeLog := r.2.pokeLog ++ [p] })

/-- The JSON body returned by the status query:
`{'publication': id, 'state': state}`. -/
structure StatusResponse where
  publication : PubId
  state : Option PubState
deriving DecidableEq, Repr

/-- `get_publication` (views.py lines 57-65): look up the state with
`check_publication_state` and return the response body; the database is
returned unchanged alongside it. -/
def get_publication (db : DB) (p : PubId) : StatusResponse × DB :=
  ({ publication := p, state := check_publication_state db p }, db)

/-- Errors raised by the views. -/
inductive ViewError where
  | badRequest (msg : String)
deriving DecidableEq, Repr

/-- Model of Python `int(s)` on the submitted form string: an optional
sign followed by at least one digit; anything else raises. -/
def parse_int (s : String) : Option Int :=
  let digitsVal : List Char → Nat :=
    fun l => l.foldl (fun a c => a * 10 + (c.toNat - '0'.toNat)) 0
  match s.data with
  | [] => none
  | c :: cs =>
    if c == '-' then
      if !cs.isEmpty && cs.all Char.isDigit then
        some (-(Int.ofNat (digitsVal cs)))
      else none
    else if (c :: cs).all Char.isDigit then
      some (Int.ofNat (digitsVal (c :: cs)))
    else none

/-- `request.route_url('license-acceptance', id=..., uid=...)`. -/
def license_acceptance_url (p : PubId) (uid : UserId) : String :=
  "/publications/" ++ toString p ++ "/license-acceptances/" ++ uid

/-- `request.route_url('role-acceptance', id=...)`. -/
def role_acceptance_url (p : PubId) : String :=
  "/publications/" ++ toString p ++ "/role-acceptances"

/-- `request.params.get('accept-all', 0)` followed by `bool(int(...))`:
an absent form value defaults to the integer 0 and parses; a present
value must parse as an integer. -/
def parseAcceptAll (v : Option String) : Option Int :=
  match v with
  | none => some 0
  | some s => parse_int s

/-- `post_accept_license` (views.py lines 99-133): validate the
`accept-all` form value (its parsed value is never used afterwards), run
the ledger UPDATE, re-invoke the state evaluator, and redirect to the
acceptance form. -/
def post_accept_license (db : DB) (p : PubId) (uid : UserId)
    (accept_all : Option String) : Except ViewError (DB × String) :=
  match parseAcceptAll accept_all with
  | none => Except.error (ViewError.badRequest "Invalid value for accept-all.")
  | some _ =>
    let db1 := updateLicenseAcceptance db p uid
    let r := poke_publication_state db1 p
    Except.ok (r.2, license_acceptance_url p uid)

/-- `post_accept_role` (views.py lines 169-201): validate the
`accept-all` form value (its parsed value is never used afterwards), run
the ledger UPDATE, re-invoke the state evaluator, and redirect to the
acceptance form. -/
def post_accept_role (db : DB) (p : PubId)
    (accept_all : Option String) : Except ViewError (DB × String) :=
  match parseAcceptAll accept_all with
  | none => Except.error (ViewError.badRequest "Invalid value for accept-all.")
  | some _ =>
    let db1 := updateRoleAcceptance db p
    let r := poke_publication_state db1 p
    Except.ok (r.2, role_acceptance_url p)

/-- The database carried by a successful handler result, with the
pre-call database as the fallback on error. -/
def resultDB (r : Except ViewError (DB × String)) (fallback : DB) : DB :=
  match r with
  | Except.ok x => x.1
  | Except.error _ => fallback

/-- The commit engine leaves the poke log untouched. -/
theorem commitPublication_pokeLog (db : DB) (p : PubId) :
    ((commitPublication db p).2).pokeLog = db.pokeLog := by
  unfold commitPublication
  split <;> rfl

/-- The state evaluator records exactly one entry in the poke log. -/
theorem pokeCore_pokeLog (db : DB) (p : PubId) :
    ((pokeCore db p).2).pokeLog = db.pokeLog := by
  unfold pokeCore
  split
  · rfl
  · split
    · rfl
    · rfl
    · split
      · rfl
      · rcases hc : commitPublication db p with ⟨ok, db1⟩
        have h2 : db1.pokeLog = db.pokeLog := by
          rw [← commitPublication_pokeLog db p, hc]
        cases ok
        · exact h2
        · exact h2

theorem poke_pokeLog (db : DB) (p : PubId) :
    ((poke_publication_state db p).2).pokeLog = db.pokeLog ++ [p] := by
  unfold poke_publication_state
  simp [pokeCore_pokeLog]

/-- Claim C8: the status query returns exactly the publication identifier
and a state drawn from {Processing, Done/Success, Failure} (or no state
when the publication does not exist), and it returns the database
unchanged: every publication, pending-document and acceptance row is
untouched. -/
theorem c8_get_publication_pure_status (db : DB) (p : PubId) :
    (get_publication db p).2 = db ∧
    (get_publication db p).1.publication = p ∧
    ((get_publication db p).1.state = none ∨
     (get_publication db p).1.state = some PubState.processing ∨
     (get_publication db p).1.state = some PubState.done ∨
     (get_publication db p).1.state = some PubState.failure) := by
  refine ⟨rfl, rfl, ?_⟩
  rcases h : check_publication_state db p with _ | s
  · exact Or.inl h
  · cases s
    · exact Or.inr (Or.inl h)
    · exact Or.inr (Or.inr (Or.inl h))
    · exact Or.inr (Or.inr (Or.inr h))

/-- A store with no rows at all, used by several concrete witnesses. -/
def emptyDB : DB :=
  { publications := []
    pending_documents := []
    publications_license_acceptance := []
    publications_role_acceptance := []
    modules := []
    commitLog := []
    pokeLog := []
    acceptCallLog := [] }

/-- Claim C10: the database effect of `post_accept_license` and
`post_accept_role` is independent of the submitted `accept-all` form
value: whenever two values both parse as integers (0 included), the two
calls return identical results — the parsed flag is never consulted
after validation. -/
theorem c10_accept_all_value_irrelevant (db : DB) (p : PubId)
    (uid : UserId) (v1 v2 : String)
    (h1 : (parse_int v1).isSome = true)
    (h2 : (parse_int v2).isSome = true) :
    post_accept_license db p uid (some v1) =
      post_accept_license db p uid (some v2) ∧
    post_accept_role db p (some v1) = post_accept_role db p (some v2) := by
  rcases Option.isSome_iff_exists.mp h1 with ⟨n1, e1⟩
  rcases Option.isSome_iff_exists.mp h2 with ⟨n2, e2⟩
  constructor
  · simp [post_accept_license, parseAcceptAll, e1, e2]
  · simp [post_accept_role, parseAcceptAll, e1, e2]

theorem c10_accept_all_value_irrelevant_witness :
    ((parse_int "1").isSome = true ∧ (parse_int "0").isSome = true) ∧
    (post_accept_license emptyDB 1 "charrose" (some "1") =
       post_accept_license emptyDB 1 "charrose" (some "0") ∧
     post_accept_role emptyDB 1 (some "1") =
       post_accept_role emptyDB 1 (some "0")) :=
  ⟨⟨by decide, by decide⟩,
   c10_accept_all_value_irrelevant emptyDB 1 "charrose" "1" "0"
     (by decide) (by decide)⟩

/-- Claim C4: every successful acceptance call (`post_accept_license` and
`post_accept_role`) re-invokes the state evaluator
(`poke_publication_state`) on the same publication before returning its
response: the poke log of the returned database extends the caller's by
exactly that publication. -/
theorem c4_accept_calls_poke_state (db : DB) (p : PubId) (uid : UserId)
    (v : Option String)
    (hl : (post_accept_license db p uid v).isOk = true)
    (hr : (post_accept_role db p v).isOk = true) :
    (resultDB (post_accept_license db p uid v) db).pokeLog =
      db.pokeLog ++ [p] ∧
    (resultDB (post_accept_role db p v) db).pokeLog =
      db.pokeLog ++ [p] := by
  constructor
  · unfold post_accept_license at hl ⊢
    rcases hp : parseAcceptAll v with _ | n
    · rw [hp] at hl
      exact Bool.noConfusion hl
    · show ((poke_publication_state (updateLicenseAcceptance db p uid) p).2).pokeLog = _
      rw [poke_pokeLog]
      rfl
  · unfold post_accept_role at hr ⊢
    rcases hp : parseAcceptAll v with _ | n
    · rw [hp] at hr
      exact Bool.noConfusion hr
    · show ((poke_publication_state (updateRoleAcceptance db p) p).2).pokeLog = _
      rw [poke_pokeLog]
      rfl

theorem c4_accept_calls_poke_state_witness :
    ((post_accept_license emptyDB 1 "charrose" (some "1")).isOk = true ∧
     (post_accept_role emptyDB 1 (some "1")).isOk = true) ∧
    ((resultDB (post_accept_license emptyDB 1 "charrose" (some "1"))
        emptyDB).pokeLog = emptyDB.pokeLog ++ [1] ∧
     (resultDB (post_accept_role emptyDB 1 (some "1"))
        emptyDB).pokeLog = emptyDB.pokeLog ++ [1]) :=
  ⟨⟨by decide, by decide⟩,
   c4_accept_calls_poke_state emptyDB 1 "charrose" (some "1")
     (by decide) (by decide)⟩

/-- A Python statement abstracted to its name-binding behaviour: either an
assignment binding one name after evaluating reads, or a bare expression
evaluating reads. -/
inductive PyStmt where
  | bindName (x : String) (reads : List String)
  | useNames (reads : List String)
deriving DecidableEq, Repr

/-- Execute a statement list over the set of bound names: the first read
of an unbound name raises (Python NameError); an assignment binds its
target for the following statements. -/
def runPy (env : List String) : List PyStmt → Except String Unit
  | [] => Except.ok ()
  | PyStmt.bindName x rs :: rest =>
    match rs.find? (fun r => !env.contains r) with
    | some r => Except.error r
    | none => runPy (x :: env) rest
  | PyStmt.useNames rs :: rest =>
    match rs.find? (fun r => !env.contains r) with
    | some r => Except.error r
    | none => runPy env rest

/-- Names a statement reads. -/
def stmtReads : PyStmt → List String
  | PyStmt.bindName _ rs => rs
  | PyStmt.useNames rs => rs

/-- Names a statement binds. -/
def stmtBinds : PyStmt → List String
  | PyStmt.bindName x _ => [x]
  | PyStmt.useNames _ => []

/-- All names read anywhere in a body. -/
def bodyReads (b : List PyStmt) : List String := b.flatMap stmtReads

/-- All names bound anywhere in a body. -/
def bodyBinds (b : List PyStmt) : List String := b.flatMap stmtBinds

/-- Module-level names of `views.py` visible inside its functions: the
imports and the names imported from `.db`. -/
def viewsModuleEnv : List String :=
  ["cnxepub", "psycopg2", "view_config", "httpexceptions", "config",
   "add_publication", "poke_publication_state", "check_publication_state"]

/-- The scope a view body starts from: its `request` parameter plus the
module-level names. -/
def viewScope : List String := "request" :: viewsModuleEnv

/-- `get_accept_license` (views.py lines 70-95), statement by statement:
note line 74 binds `setting` while line 79 reads `settings`. -/
def get_accept_license_body : List PyStmt :=
  [PyStmt.bindName "publication_id" ["request"],
   PyStmt.bindName "user_id" ["request"],
   PyStmt.bindName "setting" ["request"],
   PyStmt.bindName "db_conn" ["psycopg2", "settings", "config"],
   PyStmt.bindName "cursor" ["db_conn"],
   PyStmt.useNames ["cursor", "publication_id", "user_id"],
   PyStmt.bindName "user_document_acceptances" ["cursor"],
   PyStmt.useNames ["publication_id", "user_id", "user_document_acceptances"]]

/-- `get_accept_role` (views.py lines 138-165), statement by statement:
line 141 binds `setting` while line 147 reads `settings`, and line 160
reads `user_id`, which no statement of the body binds. -/
def get_accept_role_body : List PyStmt :=
  [PyStmt.bindName "publication_id" ["request"],
   PyStmt.bindName "setting" ["request"],
   PyStmt.bindName "db_conn" ["psycopg2", "settings", "config"],
   PyStmt.bindName "cursor" ["db_conn"],
   PyStmt.useNames ["cursor", "publication_id", "user_id"],
   PyStmt.bindName "role_acceptances" ["cursor"],
   PyStmt.useNames ["publication_id", "role_acceptances"]]

/-- Claim C9: both GET acceptance-form views raise an unhandled NameError
before producing a response, because each references a name never defined
in its scope: `get_accept_license` binds `setting` but reads `settings`,
and `get_accept_role` reads `user_id` (and also `settings`) without any
binding; so neither view ever returns its form data normally. -/
theorem c9_get_acceptance_views_raise_name_error :
    (runPy viewScope get_accept_license_body =
       Except.error "settings") ∧
    "settings" ∈ bodyReads get_accept_license_body ∧
    "settings" ∉ bodyBinds get_accept_license_body ∧
    "settings" ∉ viewScope ∧
    "setting" ∈ bodyBinds get_accept_license_body ∧
    (runPy viewScope get_accept_role_body =
       Except.error "settings") ∧
    "user_id" ∈ bodyReads get_accept_role_body ∧
    "user_id" ∉ bodyBinds get_accept_role_body ∧
    "user_id" ∉ viewScope := by
  refine ⟨rfl, ?_, ?_, ?_, ?_, rfl, ?_, ?_, ?_⟩ <;> decide

theorem map_pointwise_id {α : Type} (f : α → α) (l : List α)
    (h : ∀ a ∈ l, f a = a) : l.map f = l :=
  (List.map_congr_left h).trans (List.map_id l)

theorem acceptRow_set_true_eq (r : AcceptanceRow) (h : r.acceptance = true) :
    ({ r with acceptance := true } : AcceptanceRow) = r := by
  cases r
  simp_all

/-- Over a pending-documents table with all rows of publication `p`
removed, no uuid belongs to `p` any more. -/
theorem pendingHasIn_filter_self (P : List PendingDocument) (p : PubId)
    (u : Uuid) :
    pendingHasIn (P.filter (fun pd => !(pd.publication_id == p))) p u =
      false := by
  induction P with
  | nil => rfl
  | cons a t ih =>
    by_cases h : (a.publication_id == p) = true
    · simpa [pendingHasIn, List.filter, h] using ih
    · simp only [Bool.not_eq_true] at h
      simpa [pendingHasIn, List.filter, h] using ih

/-- The commit engine does not touch the publications table. -/
theorem commitPublication_publications (db : DB) (p : PubId) :
    ((commitPublication db p).2).publications = db.publications := by
  unfold commitPublication
  split <;> rfl

/-- A failing commit changes nothing but the commit log. -/
theorem commitPublication_false_eq (db : DB) (p : PubId) (dbC : DB)
    (h : commitPublication db p = (false, dbC)) :
    dbC = { db with commitLog := db.commitLog ++ [p] } := by
  unfold commitPublication at h
  by_cases hc : commitConflict db p = true
  · simp [hc] at h
    exact h.symm
  · simp [hc] at h

/-- A successful commit removes every pending document of the committed
publication. -/
theorem commitPublication_true_pending (db : DB) (p : PubId) (dbC : DB)
    (h : commitPublication db p = (true, dbC)) :
    dbC.pending_documents =
      db.pending_documents.filter (fun pd => !(pd.publication_id == p)) := by
  unfold commitPublication at h
  by_cases hc : commitConflict db p = true
  · simp [hc] at h
  · simp [hc] at h
    rw [← h]

theorem setState_publications (db : DB) (p : PubId) (s : PubState) :
    (setState db p s).publications =
      db.publications.map
        (fun q => if q.id == p then { q with state := s } else q) := rfl

/-- Setting the state of publication `p` updates exactly its state
column. -/
theorem stateOf_setState_self (db : DB) (p : PubId) (s : PubState) :
    stateOf (setState db p s) p = (stateOf db p).map (fun _ => s) := by
  unfold stateOf stateOfIn
  rw [setState_publications, List.find?_map]
  have hpred : ((fun q : Publication => q.id == p) ∘
      (fun q => if q.id == p then { q with state := s } else q)) =
      (fun q : Publication => q.id == p) := by
    funext x
    by_cases hx : x.id = p
    · simp [hx]
    · simp [hx]
  rw [hpred]
  rcases hf : db.publications.find? (fun q => q.id == p) with _ | x
  · rw [hf]
    rfl
  · rw [hf]
    have hx := List.find?_some hf
    have hx2 : x.id = p := by simpa using hx
    simp [hx2]

/-- Setting the state of publication `p` leaves every other
publication's state unchanged. -/
theorem stateOf_setState_ne (db : DB) (p q : PubId) (s : PubState)
    (h : ¬ p = q) :
    stateOf (setState db p s) q = stateOf db q := by
  unfold stateOf stateOfIn
  rw [setState_publications, List.find?_map]
  have hpred : ((fun x : Publication => x.id == q) ∘
      (fun x => if x.id == p then { x with state := s } else x)) =
      (fun x : Publication => x.id == q) := by
    funext x
    by_cases hx : x.id = p
    · simp [hx]
    · simp [hx]
  rw [hpred]
  rcases hf : db.publications.find? (fun x => x.id == q) with _ | x
  · rw [hf]
    rfl
  · rw [hf]
    have hx := List.find?_some hf
    have hxq : x.id = q := by simpa using hx
    have hxp : ¬ x.id = p := by
      rw [hxq]
      exact fun hh => h hh.symm
    simp [hxp]

/-- Every license row of user `uid` attached (by uuid) to a pending
document of publication `p` is already accepted. -/
def licStable (db : DB) (p : PubId) (uid : UserId) : Prop :=
  ∀ r ∈ db.publications_license_acceptance,
    (r.user_id == uid && pendingHasIn db.pending_documents p r.uuid) = true →
    r.acceptance = true

/-- The state evaluator has nothing left to do on `p`: the publication is
missing, terminal, or still has unaccepted records outstanding. -/
def pokeStable (db : DB) (p : PubId) : Prop :=
  stateOf db p = none ∨ stateOf db p = some PubState.done ∨
  stateOf db p = some PubState.failure ∨
  (stateOf db p = some PubState.processing ∧ 0 < unacceptedCount db p)

/-- Under `licStable` the license UPDATE leaves the table unchanged. -/
theorem updateLic_lic_of_stable (db : DB) (p : PubId) (uid : UserId)
    (h1 : licStable db p uid) :
    (updateLicenseAcceptance db p uid).publications_license_acceptance =
      db.publications_license_acceptance := by
  show db.publications_license_acceptance.map
      (licenseRowUpdate db.pending_documents p uid) = _
  apply map_pointwise_id
  intro r hr
  by_cases hc :
      (r.user_id == uid && pendingHasIn db.pending_documents p r.uuid) = true
  · have hacc := h1 r hr hc
    simp [licenseRowUpdate, hc, acceptRow_set_true_eq r hacc]
  · simp [licenseRowUpdate, hc]

/-- Under `pokeStable` the state evaluator is a complete no-op. -/
theorem pokeCore_stable (db : DB) (p : PubId) (h2 : pokeStable db p) :
    pokeCore db p = (stateOf db p, db) := by
  rcases h2 with h | h | h | ⟨h, hc⟩
  · have hf : db.publications.find? (fun q => q.id == p) = none := by
      unfold stateOf stateOfIn at h
      exact Option.map_eq_none'.mp h
    unfold pokeCore
    rw [hf, h]
  · obtain ⟨pub, hf, hs⟩ := Option.map_eq_some'.mp h
    unfold pokeCore
    rw [hf]
    simp [hs, h]
  · obtain ⟨pub, hf, hs⟩ := Option.map_eq_some'.mp h
    unfold pokeCore
    rw [hf]
    simp [hs, h]
  · obtain ⟨pub, hf, hs⟩ := Option.map_eq_some'.mp h
    unfold pokeCore
    rw [hf]
    simp [hs, hc, h]

/-- A second license-acceptance round on a stable store changes neither
acceptance table. -/
theorem second_license_call_noop (db : DB) (p : PubId) (uid : UserId)
    (h1 : licStable db p uid) (h2 : pokeStable db p) :
    ((pokeCore (updateLicenseAcceptance db p uid) p).2).publications_license_acceptance =
      db.publications_license_acceptance ∧
    ((pokeCore (updateLicenseAcceptance db p uid) p).2).publications_role_acceptance =
      db.publications_role_acceptance := by
  have hlic := updateLic_lic_of_stable db p uid h1
  have hcount : unacceptedCount (updateLicenseAcceptance db p uid) p =
      unacceptedCount db p := by
    unfold unacceptedCount
    rw [hlic]
    rfl
  have h2U : pokeStable (updateLicenseAcceptance db p uid) p := by
    rcases h2 with h | h | h | ⟨h, hc⟩
    · exact Or.inl h
    · exact Or.inr (Or.inl h)
    · exact Or.inr (Or.inr (Or.inl h))
    · refine Or.inr (Or.inr (Or.inr ⟨h, ?_⟩))
      rw [hcount]
      exact hc
  rw [pokeCore_stable _ p h2U]
  exact ⟨hlic, rfl⟩

/-- After one license-acceptance UPDATE followed by one state-evaluator
run, the store is stable: no matching license row is left unaccepted and
the evaluator has nothing left to do. -/
theorem first_license_call_stable (db : DB) (p : PubId) (uid : UserId) :
    licStable ((pokeCore (updateLicenseAcceptance db p uid) p).2) p uid ∧
    pokeStable ((pokeCore (updateLicenseAcceptance db p uid) p).2) p := by
  set dbU := updateLicenseAcceptance db p uid with hdbU
  have hU1 : licStable dbU p uid := by
    intro r hr hc
    have hr2 : r ∈ db.publications_license_acceptance.map
        (licenseRowUpdate db.pending_documents p uid) := hr
    rcases List.mem_map.mp hr2 with ⟨r0, _, rfl⟩
    by_cases hc0 :
        (r0.user_id == uid && pendingHasIn db.pending_documents p r0.uuid) =
          true
    · simp [licenseRowUpdate, hc0]
    · have hfix : licenseRowUpdate db.pending_documents p uid r0 = r0 := by
        simp [licenseRowUpdate, hc0]
      rw [hfix] at hc ⊢
      exact absurd hc hc0
  rcases hfind : dbU.publications.find? (fun q => q.id == p) with _ | pub
  · have hpc : pokeCore dbU p = (none, dbU) := by
      unfold pokeCore
      rw [hfind]
    rw [hpc]
    refine ⟨hU1, Or.inl ?_⟩
    unfold stateOf stateOfIn
    rw [hfind]
    rfl
  · have hfound : stateOf dbU p = some pub.state := by
      unfold stateOf stateOfIn
      rw [hfind]
      rfl
    cases hstate : pub.state
    case done =>
      have hpc : pokeCore dbU p = (some PubState.done, dbU) := by
        unfold pokeCore
        rw [hfind]
        simp [hstate]
      rw [hpc]
      refine ⟨hU1, Or.inr (Or.inl ?_)⟩
      rw [hfound, hstate]
    case failure =>
      have hpc : pokeCore dbU p = (some PubState.failure, dbU) := by
        unfold pokeCore
        rw [hfind]
        simp [hstate]
      rw [hpc]
      refine ⟨hU1, Or.inr (Or.inr (Or.inl ?_))⟩
      rw [hfound, hstate]
    case processing =>
      by_cases hcnt : 0 < unacceptedCount dbU p
      · have hpc : pokeCore dbU p = (some PubState.processing, dbU) := by
          unfold pokeCore
          rw [hfind]
          simp [hstate, hcnt]
        rw [hpc]
        refine ⟨hU1, Or.inr (Or.inr (Or.inr ⟨?_, hcnt⟩))⟩
        rw [hfound, hstate]
      · rcases hcm : commitPublication dbU p with ⟨ok, dbC⟩
        have hpubC : dbC.publications = dbU.publications := by
          rw [← commitPublication_publications dbU p, hcm]
        have hstC : stateOf dbC p = some PubState.processing := by
          unfold stateOf stateOfIn
          rw [hpubC, hfind]
          simp [hstate]
        cases ok
        · have hCeq : dbC = { dbU with commitLog := dbU.commitLog ++ [p] } :=
            commitPublication_false_eq dbU p dbC hcm
          have hpc : pokeCore dbU p =
              (some PubState.failure, setState dbC p PubState.failure) := by
            unfold pokeCore
            rw [hfind]
            simp [hstate, hcnt, hcm]
          rw [hpc]
          constructor
          · intro r hr hc
            apply hU1 r
            · rw [hCeq] at hr
              exact hr
            · rw [hCeq] at hc
              exact hc
          · refine Or.inr (Or.inr (Or.inl ?_))
            rw [stateOf_setState_self, hstC]
            rfl
        · have hpend : dbC.pending_documents =
              dbU.pending_documents.filter
                (fun pd => !(pd.publication_id == p)) :=
            commitPublication_true_pending dbU p dbC hcm
          have hpc : pokeCore dbU p =
              (some PubState.done, setState dbC p PubState.done) := by
            unfold pokeCore
            rw [hfind]
            simp [hstate, hcnt, hcm]
          rw [hpc]
          constructor
          · intro r _ hc
            have hno : pendingHasIn dbC.pending_documents p r.uuid = false := by
              rw [hpend]
              exact pendingHasIn_filter_self _ _ _
            have hc2 : (r.user_id == uid &&
                pendingHasIn dbC.pending_documents p r.uuid) = true := hc
            rw [hno] at hc2
            simp at hc2
          · refine Or.inr (Or.inl ?_)
            rw [stateOf_setState_self, hstC]
            rfl

/-- Number of accepted acceptance records (license and role). -/
def countAccepted (db : DB) : Nat :=
  (db.publications_license_acceptance.filter (fun r => r.acceptance)).length +
  (db.publications_role_acceptance.filter (fun r => r.acceptance)).length

/-- The store after one `post_accept_license` round trip. -/
def firstAccept (db : DB) (p : PubId) (uid : UserId)
    (v : Option String) : DB :=
  resultDB (post_accept_license db p uid v) db

/-- The store after a second, identical `post_accept_license` round
trip. -/
def secondAccept (db : DB) (p : PubId) (uid : UserId)
    (v : Option String) : DB :=
  resultDB (post_accept_license (firstAccept db p uid v) p uid v)
    (firstAccept db p uid v)

/-- Claim C2: `post_accept_license` is idempotent — a second run with the
same (publication, person) succeeds and leaves every acceptance flag and
the count of accepted records exactly as after the first run; and the
license UPDATE itself only ever moves flags from false to true (each row
keeps its uuid and user and its flag becomes the old flag OR-ed with the
match condition). -/
theorem c2_post_accept_license_idempotent (db : DB) (p : PubId)
    (uid : UserId) (v : Option String)
    (h : (post_accept_license db p uid v).isOk = true) :
    (post_accept_license (firstAccept db p uid v) p uid v).isOk = true ∧
    (secondAccept db p uid v).publications_license_acceptance =
      (firstAccept db p uid v).publications_license_acceptance ∧
    (secondAccept db p uid v).publications_role_acceptance =
      (firstAccept db p uid v).publications_role_acceptance ∧
    countAccepted (secondAccept db p uid v) =
      countAccepted (firstAccept db p uid v) ∧
    List.Forall₂
      (fun old new =>
        new.acceptance =
          (old.acceptance ||
            (old.user_id == uid &&
              pendingHasIn db.pending_documents p old.uuid)) ∧
        new.uuid = old.uuid ∧ new.user_id = old.user_id)
      db.publications_license_acceptance
      (updateLicenseAcceptance db p uid).publications_license_acceptance := by
  rcases hp : parseAcceptAll v with _ | n
  · unfold post_accept_license at h
    rw [hp] at h
    exact Bool.noConfusion h
  · have hpost : ∀ X : DB, post_accept_license X p uid v =
        Except.ok
          ((poke_publication_state (updateLicenseAcceptance X p uid) p).2,
            license_acceptance_url p uid) := by
      intro X
      unfold post_accept_license
      rw [hp]
    have hfirst : firstAccept db p uid v =
        (poke_publication_state (updateLicenseAcceptance db p uid) p).2 := by
      unfold firstAccept
      rw [hpost]
      rfl
    have hsecond : secondAccept db p uid v =
        (poke_publication_state
          (updateLicenseAcceptance (firstAccept db p uid v) p uid) p).2 := by
      unfold secondAccept
      rw [hpost]
      rfl
    have hstab := first_license_call_stable db p uid
    have h1 : licStable (firstAccept db p uid v) p uid := by
      rw [hfirst]
      exact hstab.1
    have h2 : pokeStable (firstAccept db p uid v) p := by
      rw [hfirst]
      exact hstab.2
    have hnoop := second_license_call_noop (firstAccept db p uid v) p uid h1 h2
    have e1 : (secondAccept db p uid v).publications_license_acceptance =
        (firstAccept db p uid v).publications_license_acceptance := by
      rw [hsecond]
      exact hnoop.1
    have e2 : (secondAccept db p uid v).publications_role_acceptance =
        (firstAccept db p uid v).publications_role_acceptance := by
      rw [hsecond]
      exact hnoop.2
    refine ⟨?_, e1, e2, ?_, ?_⟩
    · rw [hpost]
      rfl
    · unfold countAccepted
      rw [e1, e2]
    · show List.Forall₂ _ db.publications_license_acceptance
        (db.publications_license_acceptance.map
          (licenseRowUpdate db.pending_documents p uid))
      apply forall₂_map_self
      intro a
      by_cases hc :
          (a.user_id == uid && pendingHasIn db.pending_documents p a.uuid) =
            true
      · simp [licenseRowUpdate, hc]
      · simp [licenseRowUpdate, hc]

/-- Concrete store for the C2 witness: publication 1 in `Processing`
with one pending document and one unaccepted license row for the
accepting user. -/
def c2DB : DB :=
  { publications := [{ id := 1, state := PubState.processing, trusted := false }]
    pending_documents := [{ publication_id := 1, uuid := "u", major := 1, minor := 1, title := "T" }]
    publications_license_acceptance := [{ uuid := "u", user_id := "charrose", acceptance := false }]
    publications_role_acceptance := [{ uuid := "u", user_id := "charrose", acceptance := true }]
    modules := []
    commitLog := []
    pokeLog := []
    acceptCallLog := [] }

theorem c2_post_accept_license_idempotent_witness :
    (post_accept_license c2DB 1 "charrose" (some "1")).isOk = true ∧
    ((post_accept_license (firstAccept c2DB 1 "charrose" (some "1"))
        1 "charrose" (some "1")).isOk = true ∧
     (secondAccept c2DB 1 "charrose" (some "1")).publications_license_acceptance =
       (firstAccept c2DB 1 "charrose" (some "1")).publications_license_acceptance ∧
     (secondAccept c2DB 1 "charrose" (some "1")).publications_role_acceptance =
       (firstAccept c2DB 1 "charrose" (some "1")).publications_role_acceptance ∧
     countAccepted (secondAccept c2DB 1 "charrose" (some "1")) =
       countAccepted (firstAccept c2DB 1 "charrose" (some "1")) ∧
     List.Forall₂
       (fun old new =>
         new.acceptance =
           (old.acceptance ||
             (old.user_id == "charrose" &&
               pendingHasIn c2DB.pending_documents 1 old.uuid)) ∧
         new.uuid = old.uuid ∧ new.user_id = old.user_id)
       c2DB.publications_license_acceptance
       (updateLicenseAcceptance c2DB 1 "charrose").publications_license_acceptance) :=
  ⟨by decide,
   c2_post_accept_license_idempotent c2DB 1 "charrose" (some "1") (by decide)⟩

/-- The commit engine appends exactly one entry for its publication to
the commit log. -/
theorem commitPublication_commitLog (db : DB) (p : PubId) :
    ((commitPublication db p).2).commitLog = db.commitLog ++ [p] := by
  unfold commitPublication
  split <;> rfl

/-- `stateOf` only reads the publications table. -/
theorem stateOf_congr (db db2 : DB) (h : db.publications = db2.publications)
    (q : PubId) : stateOf db q = stateOf db2 q := by
  unfold stateOf stateOfIn
  rw [h]

/-- Number of commit-engine invocations recorded for publication `p`. -/
def commitCount (db : DB) (p : PubId) : Nat := db.commitLog.count p

/-- Commit-safety invariant: `p` has been committed at most once, and
unless `p` is terminal it has never been committed. -/
def invC1 (db : DB) (p : PubId) : Prop :=
  commitCount db p ≤ 1 ∧
  (stateOf db p = some PubState.done ∨
   stateOf db p = some PubState.failure ∨
   commitCount db p = 0)

/-- One inbound event of the acceptance workflow: an explicit evaluator
poll, or one of the two acceptance round trips. -/
inductive LedgerOp where
  | pokeCall (q : PubId)
  | licenseCall (q : PubId) (uid : UserId) (v : Option String)
  | roleCall (q : PubId) (v : Option String)

/-- Execute one event against the store (a failed acceptance request
leaves the store unchanged). -/
def runOp (db : DB) : LedgerOp → DB
  | LedgerOp.pokeCall q => (poke_publication_state db q).2
  | LedgerOp.licenseCall q uid v => resultDB (post_accept_license db q uid v) db
  | LedgerOp.roleCall q v => resultDB (post_accept_role db q v) db

/-- Execute a sequence of events. -/
def runOps (db : DB) (ops : List LedgerOp) : DB := ops.foldl runOp db

/-- The state evaluator preserves the commit-safety invariant. -/
theorem invC1_pokeCore (db : DB) (q p : PubId) (h : invC1 db p) :
    invC1 ((pokeCore db q).2) p := by
  rcases hfind : db.publications.find? (fun x => x.id == q) with _ | pub
  · have hpc : pokeCore db q = (none, db) := by
      unfold pokeCore
      rw [hfind]
    rw [hpc]
    exact h
  · cases hstate : pub.state
    case done =>
      have hpc : pokeCore db q = (some PubState.done, db) := by
        unfold pokeCore
        rw [hfind]
        simp [hstate]
      rw [hpc]
      exact h
    case failure =>
      have hpc : pokeCore db q = (some PubState.failure, db) := by
        unfold pokeCore
        rw [hfind]
        simp [hstate]
      rw [hpc]
      exact h
    case processing =>
      by_cases hcnt : 0 < unacceptedCount db q
      · have hpc : pokeCore db q = (some PubState.processing, db) := by
          unfold pokeCore
          rw [hfind]
          simp [hstate, hcnt]
        rw [hpc]
        exact h
      · rcases hcm : commitPublication db q with ⟨ok, dbC⟩
        have hlog : dbC.commitLog = db.commitLog ++ [q] := by
          rw [← commitPublication_commitLog db q, hcm]
        have hpubC : dbC.publications = db.publications := by
          rw [← commitPublication_publications db q, hcm]
        have hstq : stateOf db q = some PubState.processing := by
          unfold stateOf stateOfIn
          rw [hfind]
          simp [hstate]
        have main : ∀ X : PubState,
            X = PubState.done ∨ X = PubState.failure →
            invC1 (setState dbC q X) p := by
          intro X hX
          by_cases hqp : q = p
          · subst hqp
            have hzero : commitCount db q = 0 := by
              rcases h.2 with hd | hf2 | hz
              · rw [hstq] at hd
                exact absurd hd (by simp)
              · rw [hstq] at hf2
                exact absurd hf2 (by simp)
              · exact hz
            have hcnt2 : commitCount (setState dbC q X) q = 1 := by
              show dbC.commitLog.count q = 1
              rw [hlog, List.count_append]
              have hz2 : db.commitLog.count q = 0 := hzero
              simp [hz2]
            have hstX : stateOf (setState dbC q X) q = some X := by
              rw [stateOf_setState_self]
              rw [stateOf_congr dbC db hpubC q, hstq]
              rfl
            refine ⟨by rw [hcnt2], ?_⟩
            rcases hX with rfl | rfl
            · exact Or.inl hstX
            · exact Or.inr (Or.inl hstX)
          · have hcnt2 : commitCount (setState dbC q X) p = commitCount db p := by
              show dbC.commitLog.count p = db.commitLog.count p
              rw [hlog, List.count_append]
              simp [List.count_singleton', hqp]
            have hstP : stateOf (setState dbC q X) p = stateOf db p := by
              rw [stateOf_setState_ne dbC q p X hqp]
              exact stateOf_congr dbC db hpubC p
            refine ⟨by rw [hcnt2]; exact h.1, ?_⟩
            rcases h.2 with hd | hf2 | hz
            · exact Or.inl (by rw [hstP]; exact hd)
            · exact Or.inr (Or.inl (by rw [hstP]; exact hf2))
            · exact Or.inr (Or.inr (by rw [hcnt2]; exact hz))
        cases ok
        · have hpc : pokeCore db q =
              (some PubState.failure, setState dbC q PubState.failure) := by
            unfold pokeCore
            rw [hfind]
            simp [hstate, hcnt, hcm]
          rw [hpc]
          exact main PubState.failure (Or.inr rfl)
        · have hpc : pokeCore db q =
              (some PubState.done, setState dbC q PubState.done) := by
            unfold pokeCore
            rw [hfind]
            simp [hstate, hcnt, hcm]
          rw [hpc]
          exact main PubState.done (Or.inl rfl)

/-- Every workflow event preserves the commit-safety invariant. -/
theorem invC1_runOp (db : DB) (op : LedgerOp) (p : PubId)
    (h : invC1 db p) : invC1 (runOp db op) p := by
  cases op with
  | pokeCall q => exact invC1_pokeCore db q p h
  | licenseCall q uid v =>
    show invC1 (resultDB (post_accept_license db q uid v) db) p
    rcases hp : parseAcceptAll v with _ | n
    · unfold post_accept_license
      rw [hp]
      exact h
    · unfold post_accept_license
      rw [hp]
      exact invC1_pokeCore (updateLicenseAcceptance db q uid) q p h
  | roleCall q v =>
    show invC1 (resultDB (post_accept_role db q v) db) p
    rcases hp : parseAcceptAll v with _ | n
    · unfold post_accept_role
      rw [hp]
      exact h
    · unfold post_accept_role
      rw [hp]
      exact invC1_pokeCore (updateRoleAcceptance db q) q p h

theorem invC1_runOps (ops : List LedgerOp) (db : DB) (p : PubId)
    (h : invC1 db p) : invC1 (runOps db ops) p := by
  induction ops generalizing db with
  | nil => exact h
  | cons op rest ih => exact ih (runOp db op) (invC1_runOp db op p h)

/-- Claim C1: publication states only move forward — one evaluator step
sends a state to itself or from `Processing` to `Done/Success`/`Failure`,
never backward; invoking the evaluator on a terminal publication returns
that state unchanged, changes nothing but the poke log (in particular it
performs no commit); and across any sequence of evaluator polls and
acceptance round trips, a publication satisfying the commit-safety
invariant is committed at most once. -/
theorem c1_state_forward_and_at_most_once_commit :
    (∀ (db : DB) (p q : PubId) (s s2 : PubState),
      stateOf db q = some s →
      stateOf ((poke_publication_state db p).2) q = some s2 →
      (s2 = s ∨ (s = PubState.processing ∧
        (s2 = PubState.done ∨ s2 = PubState.failure)))) ∧
    (∀ (db : DB) (p : PubId) (s : PubState),
      stateOf db p = some s → ¬ s = PubState.processing →
      poke_publication_state db p =
        (some s, { db with pokeLog := db.pokeLog ++ [p] })) ∧
    (∀ (db : DB) (p : PubId) (ops : List LedgerOp),
      invC1 db p →
      invC1 (runOps db ops) p ∧ commitCount (runOps db ops) p ≤ 1) := by
  refine ⟨?_, ?_, ?_⟩
  · intro db p q s s2 h1 h2
    have h2c : stateOf ((pokeCore db p).2) q = some s2 := h2
    rcases hfind : db.publications.find? (fun x => x.id == p) with _ | pub
    · have hpc : pokeCore db p = (none, db) := by
        unfold pokeCore
        rw [hfind]
      rw [hpc] at h2c
      rw [h1] at h2c
      exact Or.inl (Option.some.inj h2c).symm
    · cases hstate : pub.state
      case done =>
        have hpc : pokeCore db p = (some PubState.done, db) := by
          unfold pokeCore
          rw [hfind]
          simp [hstate]
        rw [hpc] at h2c
        rw [h1] at h2c
        exact Or.inl (Option.some.inj h2c).symm
      case failure =>
        have hpc : pokeCore db p = (some PubState.failure, db) := by
          unfold pokeCore
          rw [hfind]
          simp [hstate]
        rw [hpc] at h2c
        rw [h1] at h2c
        exact Or.inl (Option.some.inj h2c).symm
      case processing =>
        have hstq : stateOf db p = some PubState.processing := by
          unfold stateOf stateOfIn
          rw [hfind]
          simp [hstate]
        by_cases hcnt : 0 < unacceptedCount db p
        · have hpc : pokeCore db p = (some PubState.processing, db) := by
            unfold pokeCore
            rw [hfind]
            simp [hstate, hcnt]
          rw [hpc] at h2c
          rw [h1] at h2c
          exact Or.inl (Option.some.inj h2c).symm
        · rcases hcm : commitPublication db p with ⟨ok, dbC⟩
          have hpubC : dbC.publications = db.publications := by
            rw [← commitPublication_publications db p, hcm]
          have main : ∀ X : PubState,
              X = PubState.done ∨ X = PubState.failure →
              stateOf (setState dbC p X) q = some s2 →
              (s2 = s ∨ (s = PubState.processing ∧
                (s2 = PubState.done ∨ s2 = PubState.failure))) := by
            intro X hX hstX
            by_cases hpq : p = q
            · subst hpq
              rw [stateOf_setState_self, stateOf_congr dbC db hpubC p,
                hstq] at hstX
              have hs : s = PubState.processing := by
                rw [hstq] at h1
                exact (Option.some.inj h1).symm
              have hs2 : s2 = X := (Option.some.inj hstX).symm
              refine Or.inr ⟨hs, ?_⟩
              rcases hX with rfl | rfl
              · exact Or.inl hs2
              · exact Or.inr hs2
            · rw [stateOf_setState_ne dbC p q X hpq,
                stateOf_congr dbC db hpubC q, h1] at hstX
              exact Or.inl (Option.some.inj hstX).symm
          cases ok
          · have hpc : pokeCore db p =
                (some PubState.failure, setState dbC p PubState.failure) := by
              unfold pokeCore
              rw [hfind]
              simp [hstate, hcnt, hcm]
            rw [hpc] at h2c
            exact main PubState.failure (Or.inr rfl) h2c
          · have hpc : pokeCore db p =
                (some PubState.done, setState dbC p PubState.done) := by
              unfold pokeCore
              rw [hfind]
              simp [hstate, hcnt, hcm]
            rw [hpc] at h2c
            exact main PubState.done (Or.inl rfl) h2c
  · intro db p s h1 h2
    unfold stateOf stateOfIn at h1
    obtain ⟨pub, hf, hs⟩ := Option.map_eq_some'.mp h1
    cases s
    case processing => exact absurd rfl h2
    case done =>
      have hpc : pokeCore db p = (some PubState.done, db) := by
        unfold pokeCore
        rw [hf]
        simp [hs]
      show ((pokeCore db p).1,
        { (pokeCore db p).2 with
          pokeLog := ((pokeCore db p).2).pokeLog ++ [p] }) = _
      rw [hpc]
    case failure =>
      have hpc : pokeCore db p = (some PubState.failure, db) := by
        unfold pokeCore
        rw [hf]
        simp [hs]
      show ((pokeCore db p).1,
        { (pokeCore db p).2 with
          pokeLog := ((pokeCore db p).2).pokeLog ++ [p] }) = _
      rw [hpc]
  · intro db p ops h
    have hinv := invC1_runOps ops db p h
    exact ⟨hinv, hinv.1⟩

/-- Concrete store for the C1 witness: publication 1 already terminal
(`Done/Success`) with one recorded commit. -/
def c1DB : DB :=
  { publications := [{ id := 1, state := PubState.done, trusted := false }]
    pending_documents := []
    publications_license_acceptance := []
    publications_role_acceptance := []
    modules := [{ uuid := "u", major := 1, minor := 1, name := "T" }]
    commitLog := [1]
    pokeLog := [1]
    acceptCallLog := [] }

theorem c1_state_forward_and_at_most_once_commit_witness :
    (stateOf c1DB 1 = some PubState.done ∧ invC1 c1DB 1 ∧
     stateOf ((poke_publication_state c1DB 1).2) 1 = some PubState.done ∧
     ¬ PubState.done = PubState.processing) ∧
    (PubState.done = PubState.done ∨ (PubState.done = PubState.processing ∧
      (PubState.done = PubState.done ∨ PubState.done = PubState.failure))) ∧
    poke_publication_state c1DB 1 =
      (some PubState.done, { c1DB with pokeLog := c1DB.pokeLog ++ [1] }) ∧
    (invC1 (runOps c1DB [LedgerOp.pokeCall 1, LedgerOp.pokeCall 1]) 1 ∧
     commitCount (runOps c1DB [LedgerOp.pokeCall 1, LedgerOp.pokeCall 1]) 1 ≤ 1) :=
  ⟨⟨by decide, by unfold invC1; decide, by decide, by decide⟩,
   c1_state_forward_and_at_most_once_commit.1 c1DB 1 1 PubState.done
     PubState.done (by decide) (by decide),
   c1_state_forward_and_at_most_once_commit.2.1 c1DB 1 PubState.done
     (by decide) (by decide),
   c1_state_forward_and_at_most_once_commit.2.2 c1DB 1
     [LedgerOp.pokeCall 1, LedgerOp.pokeCall 1] (by unfold invC1; decide)⟩

/-- Modelled from the spec: the metadata of one parsed content unit as
Intake consumes it (§4.1): proposed uuid and version, title, required
license grantors and required role holders. -/
structure DocMeta where
  uuid : Uuid
  major : Nat
  minor : Nat
  title : String
  license_acceptors : List UserId
  role_acceptors : List UserId
deriving DecidableEq, Repr

mutual
/-- Modelled from the spec: a node of a submitted binder tree — a leaf
document or a titled sub-collection of further nodes (§3, §9). -/
inductive ContentNode where
  | doc : DocMeta → ContentNode
  | subcol : String → ContentForest → ContentNode
/-- An ordered list of sibling nodes of a binder tree. -/
inductive ContentForest where
  | nil : ContentForest
  | cons : ContentNode → ContentForest → ContentForest
end

/-- Modelled from the spec: a binder — root metadata plus its ordered
contents. -/
structure Binder where
  meta : DocMeta
  contents : ContentForest

/-- Modelled from the spec: a parsed EPUB — either loose documents or one
binder with complete documents. -/
inductive Epub where
  | looseDocs : List DocMeta → Epub
  | binderBook : Binder → Epub

mutual
def nodeDocs : ContentNode → List DocMeta
  | ContentNode.doc m => [m]
  | ContentNode.subcol _ f => forestDocs f
def forestDocs : ContentForest → List DocMeta
  | ContentForest.nil => []
  | ContentForest.cons c f => nodeDocs c ++ forestDocs f
end

/-- All content units of a submission, in submission order (for a binder
the binder row itself comes first, as a `Collection` pending row). -/
def epubDocs : Epub → List DocMeta
  | Epub.looseDocs ds => ds
  | Epub.binderBook b => b.meta :: forestDocs b.contents

/-- A publication identifier strictly greater than every identifier in
use (serial column of the publications table). -/
def freshPubId (db : DB) : PubId :=
  (db.publications.map (fun q => q.id) ++
    db.pending_documents.map (fun pd => pd.publication_id)).foldr max 0 + 1

/-- Modelled from the spec: the `DuplicateSubmission` check (§4.1) — the
(uuid, major, minor) triple already exists as a pending or permanent
record. -/
def docCollides (db : DB) (d : DocMeta) : Bool :=
  db.pending_documents.any (fun pd =>
    pd.uuid == d.uuid && pd.major == d.major && pd.minor == d.minor) ||
  db.modules.any (fun m =>
    m.uuid == d.uuid && m.major == d.major && m.minor == d.minor)

/-- Modelled from the spec: the `MalformedContent` check (§4.1) — an
empty content tree, or a node without a title or without any role. -/
def malformedDocs (docs : List DocMeta) : Bool :=
  docs.isEmpty || docs.any (fun d => d.title == "" || d.role_acceptors.isEmpty)

/-- License-acceptance rows created at intake: one per (document,
required license grantor), pre-accepted exactly when the submission is
trusted. -/
def licRowsOf (docs : List DocMeta) (accepted : Bool) : List AcceptanceRow :=
  docs.flatMap (fun d => d.license_acceptors.map
    (fun u => { uuid := d.uuid, user_id := u, acceptance := accepted }))

/-- Role-acceptance rows created at intake: one per (document, required
role holder), pre-accepted exactly when the submission is trusted. -/
def roleRowsOf (docs : List DocMeta) (accepted : Bool) : List AcceptanceRow :=
  docs.flatMap (fun d => d.role_acceptors.map
    (fun u => { uuid := d.uuid, user_id := u, acceptance := accepted }))

/-- Pending-document rows created at intake, one per content unit. -/
def pendRowsOf (docs : List DocMeta) (pid : PubId) : List PendingDocument :=
  docs.map (fun d =>
    { publication_id := pid, uuid := d.uuid, major := d.major,
      minor := d.minor, title := d.title })

/-- Modelled from the spec: `add_publication` of the absent `db.py`
(Intake, §4.1): reject malformed or duplicate submissions, otherwise
create the publication row in `Processing`, one pending row per content
unit and one acceptance row per required person, pre-accepted when
trusted; return the id and the logical-id mapping. -/
def add_publication (db : DB) (e : Epub) (trusted : Bool) :
    Except ViewError (DB × PubId × List (Uuid × Nat × Nat)) :=
  if malformedDocs (epubDocs e) then
    Except.error (ViewError.badRequest "MalformedContent")
  else if (epubDocs e).any (docCollides db) then
    Except.error (ViewError.badRequest "DuplicateSubmission")
  else
    Except.ok
      ({ db with
         publications := db.publications ++
           [{ id := freshPubId db, state := PubState.processing,
              trusted := trusted }],
         pending_documents :=
           db.pending_documents ++ pendRowsOf (epubDocs e) (freshPubId db),
         publications_license_acceptance :=
           db.publications_license_acceptance ++
             licRowsOf (epubDocs e) trusted,
         publications_role_acceptance :=
           db.publications_role_acceptance ++
             roleRowsOf (epubDocs e) trusted },
       freshPubId db, (epubDocs e).map (fun d => (d.uuid, d.major, d.minor)))

/-- The `epub` form field as the `publish` view sees it: missing from the
POST body, present but rejected by the EPUB parser, or parsed. -/
inductive EpubField where
  | absent
  | unparseable
  | parsed (e : Epub)

/-- The JSON body returned by a successful `publish`:
`{'publication': id, 'mapping': publications, 'state': state}`. -/
structure PubResponse where
  publication : PubId
  mapping : List (Uuid × Nat × Nat)
  state : PubState
deriving DecidableEq, Repr

/-- `publish` (views.py lines 23-52): reject a request without an `epub`
field or whose upload the EPUB parser refuses, before any database work;
otherwise run intake and poke the new publication, returning its id,
mapping and state. -/
def publish (db : DB) (f : EpubField) (trusted : Bool) :
    DB × Except ViewError PubResponse :=
  match f with
  | EpubField.absent =>
    (db, Except.error (ViewError.badRequest "Missing EPUB in POST body."))
  | EpubField.unparseable =>
    (db, Except.error (ViewError.badRequest "Format not recognized."))
  | EpubField.parsed e =>
    match add_publication db e trusted with
    | Except.error err => (db, Except.error err)
    | Except.ok (db1, pid, mapping) =>
      ((poke_publication_state db1 pid).2,
        Except.ok
          { publication := pid
            mapping := mapping
            state := (poke_publication_state db1 pid).1.getD
              PubState.processing })

/-- Claim C7: a request with no payload, an unparseable payload, or a
payload that is not valid content fails synchronously with a bad-request
error and the database — publication rows, pending rows and all — is
returned exactly as it was. -/
theorem c7_publish_rejects_malformed (db : DB) (t : Bool) :
    publish db EpubField.absent t =
      (db, Except.error (ViewError.badRequest "Missing EPUB in POST body.")) ∧
    publish db EpubField.unparseable t =
      (db, Except.error (ViewError.badRequest "Format not recognized.")) ∧
    (∀ e : Epub, malformedDocs (epubDocs e) = true →
      publish db (EpubField.parsed e) t =
        (db, Except.error (ViewError.badRequest "MalformedContent"))) := by
  refine ⟨rfl, rfl, ?_⟩
  intro e he
  have hadd : add_publication db e t =
      Except.error (ViewError.badRequest "MalformedContent") := by
    unfold add_publication
    rw [if_pos he]
  simp only [publish]
  rw [hadd]

theorem c7_publish_rejects_malformed_witness :
    (malformedDocs (epubDocs (Epub.looseDocs [])) = true) ∧
    (publish emptyDB EpubField.absent false =
      (emptyDB,
        Except.error (ViewError.badRequest "Missing EPUB in POST body.")) ∧
     publish emptyDB EpubField.unparseable false =
      (emptyDB, Except.error (ViewError.badRequest "Format not recognized.")) ∧
     publish emptyDB (EpubField.parsed (Epub.looseDocs [])) false =
      (emptyDB, Except.error (ViewError.badRequest "MalformedContent"))) :=
  ⟨by decide,
   ⟨(c7_publish_rejects_malformed emptyDB false).1,
    (c7_publish_rejects_malformed emptyDB false).2.1,
    (c7_publish_rejects_malformed emptyDB false).2.2 (Epub.looseDocs [])
      (by decide)⟩⟩

/-- `uuid||'@'||concat_ws('.', major_version, minor_version)` — the ident
hash the archive exposes for a committed document. -/
def identHash (d : DocMeta) : String :=
  d.uuid ++ "@" ++ toString d.major ++ "." ++ toString d.minor

mutual
/-- Modelled from the spec: a node of the tree the Commit Engine
materializes (§4.3) — a leaf `{id, title}` or a node
`{id, title, contents}`. -/
inductive TreeJson where
  | leaf : String → String → TreeJson
  | node : String → String → TreeForest → TreeJson
/-- The ordered contents of a materialized tree node. -/
inductive TreeForest where
  | nil : TreeForest
  | cons : TreeJson → TreeForest → TreeForest
end

mutual
/-- Modelled from the spec: the Commit Engine's bottom-up tree
materialization (§4.3): a leaf document becomes `{id: identHash, title}`,
a sub-collection becomes `{id: "subcol", title, contents}` in submission
order. -/
def materializeNode : ContentNode → TreeJson
  | ContentNode.doc m => TreeJson.leaf (identHash m) m.title
  | ContentNode.subcol t f => TreeJson.node "subcol" t (materializeForest f)
def materializeForest : ContentForest → TreeForest
  | ContentForest.nil => TreeForest.nil
  | ContentForest.cons c f =>
    TreeForest.cons (materializeNode c) (materializeForest f)
end

/-- Modelled from the spec: the materialized tree of a whole binder —
the root is `{id: identHash, title, contents}`. -/
def materializeBinder (b : Binder) : TreeJson :=
  TreeJson.node (identHash b.meta) b.meta.title (materializeForest b.contents)

mutual
/-- Titles of a submitted subtree in depth-first submission order. -/
def flattenNodeTitles : ContentNode → List String
  | ContentNode.doc m => [m.title]
  | ContentNode.subcol t f => t :: flattenForestTitles f
def flattenForestTitles : ContentForest → List String
  | ContentForest.nil => []
  | ContentForest.cons c f => flattenNodeTitles c ++ flattenForestTitles f
end

mutual
/-- Titles of a materialized tree in depth-first order. -/
def flattenJsonTitles : TreeJson → List String
  | TreeJson.leaf _ t => [t]
  | TreeJson.node _ t f => t :: flattenTreeForestTitles f
def flattenTreeForestTitles : TreeForest → List String
  | TreeForest.nil => []
  | TreeForest.cons c f => flattenJsonTitles c ++ flattenTreeForestTitles f
end

mutual
theorem flatten_materialize_node (c : ContentNode) :
    flattenJsonTitles (materializeNode c) = flattenNodeTitles c := by
  cases c with
  | doc m => rfl
  | subcol t f =>
    show t :: flattenTreeForestTitles (materializeForest f) =
      t :: flattenForestTitles f
    rw [flatten_materialize_forest f]
theorem flatten_materialize_forest (f : ContentForest) :
    flattenTreeForestTitles (materializeForest f) = flattenForestTitles f := by
  cases f with
  | nil => rfl
  | cons c f2 =>
    show flattenJsonTitles (materializeNode c) ++
        flattenTreeForestTitles (materializeForest f2) = _
    rw [flatten_materialize_node c, flatten_materialize_forest f2]
    rfl
end

/-- Claim C6: the tree the Commit Engine materializes for a binder
submission preserves the submitted structure exactly: its depth-first
flattening visits titles in exactly the submitted depth-first order; each
sub-collection is materialized as `{id: "subcol", title, contents}` with
contents in submission order, and the root as `{id: identHash, title,
contents}` — no resorting. -/
theorem c6_commit_tree_preserves_submission_order (b : Binder) :
    flattenJsonTitles (materializeBinder b) =
      b.meta.title :: flattenForestTitles b.contents ∧
    (∀ (t : String) (f : ContentForest),
      materializeNode (ContentNode.subcol t f) =
        TreeJson.node "subcol" t (materializeForest f)) ∧
    materializeBinder b =
      TreeJson.node (identHash b.meta) b.meta.title
        (materializeForest b.contents) := by
  refine ⟨?_, fun t f => rfl, rfl⟩
  show b.meta.title :: flattenTreeForestTitles (materializeForest b.contents) =
    b.meta.title :: flattenForestTitles b.contents
  rw [flatten_materialize_forest]

theorem mem_le_foldr_max (l : List Nat) (x : Nat) (hx : x ∈ l) :
    x ≤ l.foldr max 0 := by
  induction l with
  | nil => cases hx
  | cons a t ih =>
    rcases List.mem_cons.mp hx with rfl | hxt
    · exact le_max_left _ _
    · exact le_trans (ih hxt) (le_max_right _ _)

/-- The fresh publication identifier exceeds every identifier of the
publications table. -/
theorem freshPubId_gt_publications (db : DB) (q : Publication)
    (hq : q ∈ db.publications) : q.id < freshPubId db := by
  have hmem : q.id ∈ db.publications.map (fun x => x.id) ++
      db.pending_documents.map (fun pd => pd.publication_id) :=
    List.mem_append.mpr (Or.inl (List.mem_map.mpr ⟨q, hq, rfl⟩))
  exact Nat.lt_succ_of_le (mem_le_foldr_max _ _ hmem)

/-- The fresh publication identifier exceeds every publication id
referenced by a pending document. -/
theorem freshPubId_gt_pending (db : DB) (pd : PendingDocument)
    (hpd : pd ∈ db.pending_documents) :
    pd.publication_id < freshPubId db := by
  have hmem : pd.publication_id ∈ db.publications.map (fun x => x.id) ++
      db.pending_documents.map (fun x => x.publication_id) :=
    List.mem_append.mpr (Or.inr (List.mem_map.mpr ⟨pd, hpd, rfl⟩))
  exact Nat.lt_succ_of_le (mem_le_foldr_max _ _ hmem)

theorem mem_licRowsOf (docs : List DocMeta) (b : Bool) (r : AcceptanceRow)
    (hr : r ∈ licRowsOf docs b) :
    r.acceptance = b ∧ ∃ d ∈ docs, r.uuid = d.uuid := by
  rcases List.mem_flatMap.mp hr with ⟨d, hd, hr2⟩
  rcases List.mem_map.mp hr2 with ⟨u, _, rfl⟩
  exact ⟨rfl, d, hd, rfl⟩

theorem mem_roleRowsOf (docs : List DocMeta) (b : Bool) (r : AcceptanceRow)
    (hr : r ∈ roleRowsOf docs b) :
    r.acceptance = b ∧ ∃ d ∈ docs, r.uuid = d.uuid := by
  rcases List.mem_flatMap.mp hr with ⟨d, hd, hr2⟩
  rcases List.mem_map.mp hr2 with ⟨u, _, rfl⟩
  exact ⟨rfl, d, hd, rfl⟩

theorem mem_pendRowsOf (docs : List DocMeta) (pid : PubId)
    (pd : PendingDocument) (hpd : pd ∈ pendRowsOf docs pid) :
    pd.publication_id = pid ∧
    ∃ d ∈ docs, pd.uuid = d.uuid ∧ pd.major = d.major ∧
      pd.minor = d.minor := by
  rcases List.mem_map.mp hpd with ⟨d, hd, rfl⟩
  exact ⟨rfl, d, hd, rfl, rfl, rfl⟩

/-- Looking a publication up in a table that ends with a row whose id
matches no earlier row finds that row. -/
theorem stateOfIn_append_last (l : List Publication) (pub : Publication)
    (h : ∀ q ∈ l, ¬ q.id = pub.id) :
    stateOfIn (l ++ [pub]) pub.id = some pub.state := by
  induction l with
  | nil => simp [stateOfIn, List.find?]
  | cons a t ih =>
    have ha : (a.id == pub.id) = false := by
      simp
      exact h a (List.mem_cons_self a t)
    have := ih (fun q hq => h q (List.mem_cons_of_mem a hq))
    simpa [stateOfIn, List.find?, ha] using this

/-- The commit engine never writes the acceptance-call log. -/
theorem commitPublication_acceptCallLog (db : DB) (p : PubId) :
    ((commitPublication db p).2).acceptCallLog = db.acceptCallLog := by
  unfold commitPublication
  split <;> rfl

/-- When no lit uuid of the submission collides and the pending rows of
other publications live under smaller ids, the fresh publication owns a
uuid in the combined table only through its own new rows. -/
theorem pendingHasIn_append_new (db : DB) (docs : List DocMeta)
    (pid : PubId) (u : Uuid)
    (hfresh : ∀ pd ∈ db.pending_documents, ¬ pd.publication_id = pid)
    (hno : ∀ d ∈ docs, ¬ d.uuid = u) :
    pendingHasIn (db.pending_documents ++ pendRowsOf docs pid) pid u =
      false := by
  unfold pendingHasIn
  rw [List.any_append]
  have h1 : db.pending_documents.any
      (fun pd => pd.publication_id == pid && pd.uuid == u) = false := by
    rw [List.any_eq_false]
    intro pd hpd
    simp [hfresh pd hpd]
  have h2 : (pendRowsOf docs pid).any
      (fun pd => pd.publication_id == pid && pd.uuid == u) = false := by
    rw [List.any_eq_false]
    intro pd hpd
    obtain ⟨-, d, hd, hu, -, -⟩ := mem_pendRowsOf docs pid pd hpd
    simp
    intro _
    rw [hu]
    exact hno d hd
  rw [h1, h2]
  rfl

/-- Claim C5: under a trusted credential every acceptance record the
intake creates is already accepted, the publish response itself already
reports `Done/Success`, and no acceptance call is made (the
acceptance-call log is unchanged).  The first hypothesis encodes the
spec's data-model invariant that acceptance records belong to the
publication's own pending documents: the store holds no unaccepted
ledger row for a uuid of this submission. -/
theorem c5_trusted_submission_immediate_success (db : DB) (e : Epub)
    (hclean : ∀ r : AcceptanceRow,
      (r ∈ db.publications_license_acceptance ∨
        r ∈ db.publications_role_acceptance) →
      r.acceptance = false → ∀ d ∈ epubDocs e, ¬ d.uuid = r.uuid)
    (hok : ((publish db (EpubField.parsed e) true).2).isOk = true) :
    (∃ resp : PubResponse,
      (publish db (EpubField.parsed e) true).2 = Except.ok resp ∧
      resp.state = PubState.done) ∧
    ((publish db (EpubField.parsed e) true).1).acceptCallLog =
      db.acceptCallLog ∧
    (∀ r ∈ licRowsOf (epubDocs e) true, r.acceptance = true) ∧
    (∀ r ∈ roleRowsOf (epubDocs e) true, r.acceptance = true) ∧
    (∀ (db1 : DB) (pid2 : PubId) (mp : List (Uuid × Nat × Nat)),
      add_publication db e true = Except.ok (db1, pid2, mp) →
      db1.publications_license_acceptance =
        db.publications_license_acceptance ++ licRowsOf (epubDocs e) true ∧
      db1.publications_role_acceptance =
        db.publications_role_acceptance ++ roleRowsOf (epubDocs e) true) := by
  by_cases hmal : malformedDocs (epubDocs e) = true
  · exfalso
    have hbad : add_publication db e true =
        Except.error (ViewError.badRequest "MalformedContent") := by
      unfold add_publication
      rw [if_pos hmal]
    have hbad2 : publish db (EpubField.parsed e) true =
        (db, Except.error (ViewError.badRequest "MalformedContent")) := by
      simp only [publish]
      rw [hbad]
    rw [hbad2] at hok
    exact Bool.noConfusion hok
  by_cases hdup : (epubDocs e).any (docCollides db) = true
  · exfalso
    have hbad : add_publication db e true =
        Except.error (ViewError.badRequest "DuplicateSubmission") := by
      unfold add_publication
      rw [if_neg hmal, if_pos hdup]
    have hbad2 : publish db (EpubField.parsed e) true =
        (db, Except.error (ViewError.badRequest "DuplicateSubmission")) := by
      simp only [publish]
      rw [hbad]
    rw [hbad2] at hok
    exact Bool.noConfusion hok
  set pid := freshPubId db with hpid
  set dbI : DB :=
    { db with
      publications := db.publications ++
        [{ id := pid, state := PubState.processing, trusted := true }],
      pending_documents :=
        db.pending_documents ++ pendRowsOf (epubDocs e) pid,
      publications_license_acceptance :=
        db.publications_license_acceptance ++ licRowsOf (epubDocs e) true,
      publications_role_acceptance :=
        db.publications_role_acceptance ++ roleRowsOf (epubDocs e) true }
    with hdbI
  have hadd : add_publication db e true = Except.ok
      (dbI, pid, (epubDocs e).map (fun d => (d.uuid, d.major, d.minor))) := by
    unfold add_publication
    rw [if_neg hmal, if_neg hdup]
  have hfresh : ∀ pd ∈ db.pending_documents, ¬ pd.publication_id = pid := by
    intro pd hpd
    have hlt := freshPubId_gt_pending db pd hpd
    rw [← hpid] at hlt
    exact Nat.ne_of_lt hlt
  have hfreshq : ∀ q ∈ db.publications, ¬ q.id = pid := by
    intro q hq
    have hlt := freshPubId_gt_publications db q hq
    rw [← hpid] at hlt
    exact Nat.ne_of_lt hlt
  have hstate1 : stateOf dbI pid = some PubState.processing := by
    show stateOfIn (db.publications ++
      [{ id := pid, state := PubState.processing, trusted := true }]) pid = _
    exact stateOfIn_append_last db.publications
      { id := pid, state := PubState.processing, trusted := true } hfreshq
  have hcount0 : unacceptedCount dbI pid = 0 := by
    show unacceptedCountIn
      (db.publications_license_acceptance ++ licRowsOf (epubDocs e) true)
      (db.publications_role_acceptance ++ roleRowsOf (epubDocs e) true)
      (db.pending_documents ++ pendRowsOf (epubDocs e) pid) pid = 0
    unfold unacceptedCountIn
    rw [List.filter_append, List.filter_append]
    have hold_lic : db.publications_license_acceptance.filter
        (fun r => !r.acceptance &&
          pendingHasIn (db.pending_documents ++ pendRowsOf (epubDocs e) pid)
            pid r.uuid) = [] := by
      rw [List.filter_eq_nil_iff]
      intro r hr
      by_cases hacc : r.acceptance = true
      · simp [hacc]
      · simp only [Bool.not_eq_true] at hacc
        have hph := pendingHasIn_append_new db (epubDocs e) pid r.uuid hfresh
          (hclean r (Or.inl hr) hacc)
        simp [hph]
    have hnew_lic : (licRowsOf (epubDocs e) true).filter
        (fun r => !r.acceptance &&
          pendingHasIn (db.pending_documents ++ pendRowsOf (epubDocs e) pid)
            pid r.uuid) = [] := by
      rw [List.filter_eq_nil_iff]
      intro r hr
      have hacc := (mem_licRowsOf _ _ _ hr).1
      simp [hacc]
    have hold_role : db.publications_role_acceptance.filter
        (fun r => !r.acceptance &&
          pendingHasIn (db.pending_documents ++ pendRowsOf (epubDocs e) pid)
            pid r.uuid) = [] := by
      rw [List.filter_eq_nil_iff]
      intro r hr
      by_cases hacc : r.acceptance = true
      · simp [hacc]
      · simp only [Bool.not_eq_true] at hacc
        have hph := pendingHasIn_append_new db (epubDocs e) pid r.uuid hfresh
          (hclean r (Or.inr hr) hacc)
        simp [hph]
    have hnew_role : (roleRowsOf (epubDocs e) true).filter
        (fun r => !r.acceptance &&
          pendingHasIn (db.pending_documents ++ pendRowsOf (epubDocs e) pid)
            pid r.uuid) = [] := by
      rw [List.filter_eq_nil_iff]
      intro r hr
      have hacc := (mem_roleRowsOf _ _ _ hr).1
      simp [hacc]
    rw [hold_lic, hnew_lic, hold_role, hnew_role]
    rfl
  have hdupf : ∀ d ∈ epubDocs e, docCollides db d = false := by
    intro d hd
    simp only [Bool.not_eq_true] at hdup
    have := List.any_eq_false.mp hdup d hd
    simp only [Bool.not_eq_true] at this
    exact this
  have hconf : commitConflict dbI pid = false := by
    show (db.pending_documents ++ pendRowsOf (epubDocs e) pid).any
      (fun pd => pd.publication_id == pid &&
        db.modules.any (fun m => m.uuid == pd.uuid && m.major == pd.major &&
          m.minor == pd.minor)) = false
    rw [List.any_append]
    have h1 : db.pending_documents.any
        (fun pd => pd.publication_id == pid &&
          db.modules.any (fun m => m.uuid == pd.uuid &&
            m.major == pd.major && m.minor == pd.minor)) = false := by
      rw [List.any_eq_false]
      intro pd hpd
      simp [hfresh pd hpd]
    have h2 : (pendRowsOf (epubDocs e) pid).any
        (fun pd => pd.publication_id == pid &&
          db.modules.any (fun m => m.uuid == pd.uuid &&
            m.major == pd.major && m.minor == pd.minor)) = false := by
      rw [List.any_eq_false]
      intro pd hpd
      obtain ⟨hpub, d, hd, hu, hmj, hmn⟩ := mem_pendRowsOf _ _ pd hpd
      have hcol := hdupf d hd
      unfold docCollides at hcol
      have hmod := (Bool.or_eq_false_iff.mp hcol).2
      rw [hu, hmj, hmn]
      simp [hmod]
    rw [h1, h2]
    rfl
  have hfst : (commitPublication dbI pid).1 = true := by
    unfold commitPublication
    simp [hconf]
  rcases hcm : commitPublication dbI pid with ⟨ok, dbC⟩
  have hokc : ok = true := by
    have h5 : (commitPublication dbI pid).1 = ok := by rw [hcm]
    rw [← h5]
    exact hfst
  subst hokc
  obtain ⟨pub1, hfind1, hst1⟩ := Option.map_eq_some'.mp
    (show (dbI.publications.find? (fun q => q.id == pid)).map
      Publication.state = some PubState.processing from hstate1)
  have hpc : pokeCore dbI pid =
      (some PubState.done, setState dbC pid PubState.done) := by
    unfold pokeCore
    rw [hfind1]
    simp [hst1, hcount0, hcm]
  have hpub2 : publish db (EpubField.parsed e) true =
      ((poke_publication_state dbI pid).2,
        Except.ok
          { publication := pid
            mapping := (epubDocs e).map (fun d => (d.uuid, d.major, d.minor))
            state := (poke_publication_state dbI pid).1.getD
              PubState.processing }) := by
    simp only [publish]
    rw [hadd]
  have hpoke1 : (poke_publication_state dbI pid).1 = some PubState.done := by
    show (pokeCore dbI pid).1 = _
    rw [hpc]
  refine ⟨⟨{ publication := pid
             mapping := (epubDocs e).map (fun d => (d.uuid, d.major, d.minor))
             state := (poke_publication_state dbI pid).1.getD
               PubState.processing }, ?_, ?_⟩, ?_, ?_, ?_, ?_⟩
  · rw [hpub2]
  · show ((poke_publication_state dbI pid).1.getD PubState.processing) =
      PubState.done
    rw [hpoke1]
    rfl
  · rw [hpub2]
    show ((pokeCore dbI pid).2).acceptCallLog = db.acceptCallLog
    rw [hpc]
    show dbC.acceptCallLog = db.acceptCallLog
    have h3 : dbC.acceptCallLog = dbI.acceptCallLog := by
      rw [← commitPublication_acceptCallLog dbI pid, hcm]
    rw [h3]
  · intro r hr
    exact (mem_licRowsOf _ _ _ hr).1
  · intro r hr
    exact (mem_roleRowsOf _ _ _ hr).1
  · intro db1 pid2 mp hy
    rw [hadd] at hy
    have h4 := Except.ok.inj hy
    have hdb1 : dbI = db1 := congrArg Prod.fst h4
    rw [← hdb1]
    exact ⟨rfl, rfl⟩

/-- Concrete submission for the C5 witness: two loose documents with the
required title and role metadata. -/
def c5Epub : Epub :=
  Epub.looseDocs
    [{ uuid := "u1", major := 1, minor := 1, title := "Boom",
       license_acceptors := ["alice"], role_acceptors := ["bob"] },
     { uuid := "u2", major := 1, minor := 1, title := "Figgy",
       license_acceptors := ["alice"], role_acceptors := ["bob"] }]

theorem c5_trusted_submission_immediate_success_witness :
    ((publish emptyDB (EpubField.parsed c5Epub) true).2.isOk = true) ∧
    ((∃ resp : PubResponse,
        (publish emptyDB (EpubField.parsed c5Epub) true).2 =
          Except.ok resp ∧
        resp.state = PubState.done) ∧
     ((publish emptyDB (EpubField.parsed c5Epub) true).1).acceptCallLog =
        emptyDB.acceptCallLog ∧
     (∀ r ∈ licRowsOf (epubDocs c5Epub) true, r.acceptance = true) ∧
     (∀ r ∈ roleRowsOf (epubDocs c5Epub) true, r.acceptance = true) ∧
     (∀ (db1 : DB) (pid2 : PubId) (mp : List (Uuid × Nat × Nat)),
        add_publication emptyDB c5Epub true = Except.ok (db1, pid2, mp) →
        db1.publications_license_acceptance =
          emptyDB.publications_license_acceptance ++
            licRowsOf (epubDocs c5Epub) true ∧
        db1.publications_role_acceptance =
          emptyDB.publications_role_acceptance ++
            roleRowsOf (epubDocs c5Epub) true)) :=
  ⟨by decide,
   c5_trusted_submission_immediate_success emptyDB c5Epub
     (by
       intro r hr hacc d hd
       rcases hr with h | h
       · exact absurd h (List.not_mem_nil r)
       · exact absurd h (List.not_mem_nil r))
     (by decide)⟩
